import Mathlib

/-!
# Verification of the CopyQ clipboard-history core

Shallow embedding of the core data structures and algorithms of the CopyQ
repository (`src/client_server.cpp`, `src/clipboardmodel.cpp`,
`src/clipboardbrowser.cpp`) together with theorems settling the claims of
the natural-language specification.

Bytes and Qt unsigned integers are modelled as `Nat` with explicit
`% 2^32` where overflow matters.  Fallible operations return `Option` or
a `Bool × state` pair, mirroring the C++ boolean-result convention.
-/

namespace CopyQ

/-- One byte / one UTF-16 code unit, modelled as `Nat` (values < 256 resp.
< 65536 at call sites). -/
abbrev Byte := Nat

/-- Qt 4's `qHash` core loop (`qalgorithms` / `qhash.cpp`):
`h = (h << 4) + c; h ^= (h & 0xf0000000) >> 23; h &= 0x0fffffff;`
applied to each character.  `qHash(QByteArray)` and `qHash(QString)` both
run this loop over their code units, so one function serves for both. -/
def qHashStep (h c : Nat) : Nat :=
  let h1 := (h * 16 + c) % 2 ^ 32
  let h2 := h1 ^^^ ((h1 / 2 ^ 28) * 2 ^ 5)
  h2 % 2 ^ 28

/-- Qt 4 `qHash` over a list of code units. -/
def qHash (cs : List Byte) : Nat :=
  cs.foldl qHashStep 0

/-- A format identifier or payload, as its list of code units. -/
abbrev Codes := List Byte

/-- `DataBundle` (`QMimeData` contents): ordered association list from
format identifier to raw payload bytes. -/
abbrev DataBundle := List (Codes × Codes)

/-- `QMimeData::data(mime)`: payload of the given format, or the empty
byte array when the format is absent (Qt returns a null `QByteArray`). -/
def bundleData (b : DataBundle) (mime : Codes) : Codes :=
  match b.find? (fun p => p.1 == mime) with
  | some p => p.2
  | none => []

/-- Whether the bundle carries the given format. -/
def bundleHas (b : DataBundle) (mime : Codes) : Bool :=
  (b.find? (fun p => p.1 == mime)).isSome

/-- `hash(const QMimeData &data, const QStringList &formats)` from
`src/client_server.cpp`: XOR-accumulates `qHash(bytes) + qHash(mime)`
over ALL requested formats, where `bytes = data.data(mime)` is the empty
byte array for formats absent from the bundle. -/
def hashMime (data : DataBundle) (formats : List Codes) : Nat :=
  formats.foldl
    (fun h mime => h ^^^ ((qHash (bundleData data mime) + qHash mime) % 2 ^ 32))
    0

/-- The fingerprint as the SPEC words it (§4.3 / claim C5): for each
requested format PRESENT in the bundle, XOR-accumulate the term
`hash(payloadBytes) XOR hash(formatName)`; absent formats are skipped
entirely.  Written from the spec only, to be compared with `hashMime`. -/
def specFingerprint (data : DataBundle) (formats : List Codes) : Nat :=
  (formats.filter (fun mime => bundleHas data mime)).foldl
    (fun h mime => h ^^^ (qHash (bundleData data mime) ^^^ qHash mime))
    0

/-- The fingerprint as amended: XOR-accumulation over ALL requested
formats of `(qHash(payload-or-empty) + qHash(formatName)) mod 2^32`,
built as a fold-free map-then-XOR to compare against `hashMime`. -/
def amendedFingerprint (data : DataBundle) (formats : List Codes) : Nat :=
  (formats.map
      (fun mime => (qHash (bundleData data mime) + qHash mime) % 2 ^ 32)).foldr
    (fun t h => t ^^^ h) 0

/-! ## Message framing (`src/client_server.cpp`) -/

/-- Big-endian 4-byte encoding of a `quint32`, as `QDataStream` emits it
(default byte order is big-endian). -/
def toBE32 (n : Nat) : List Byte :=
  [n / 2 ^ 24 % 256, n / 2 ^ 16 % 256, n / 2 ^ 8 % 256, n % 256]

/-- Decoding of a 4-byte big-endian `quint32`. -/
def fromBE32 (b0 b1 b2 b3 : Byte) : Nat :=
  b0 * 2 ^ 24 + b1 * 2 ^ 16 + b2 * 2 ^ 8 + b3

/-- `readBytes(socket, size, bytes)`: succeeds returning the first `size`
bytes and the rest of the stream iff the stream holds at least `size`
bytes; otherwise the poll times out and the read fails. -/
def readBytes (stream : List Byte) (size : Nat) : Option (List Byte × List Byte) :=
  if size ≤ stream.length then some (stream.take size, stream.drop size) else none

/-- `writeMessage(socket, msg)`: `QDataStream::writeBytes` emits the
`quint32` length prefix (big-endian) followed by the raw payload. -/
def writeMessage (msg : List Byte) : List Byte :=
  toBE32 (msg.length % 2 ^ 32) ++ msg

/-- `readMessage(socket, msg)`: read 4 bytes, decode the big-endian
`quint32` length, then read exactly that many payload bytes.  Returns the
payload and the unconsumed remainder of the stream. -/
def readMessage (stream : List Byte) : Option (List Byte × List Byte) :=
  match readBytes stream 4 with
  | none => none
  | some (pre, rest) =>
    match pre with
    | [b0, b1, b2, b3] =>
      match readBytes rest (fromBE32 b0 b1 b2 b3) with
      | none => none
      | some (msg, rest2) => some (msg, rest2)
    | _ => none

/-! ## Server endpoint binding (`newServer` in `src/client_server.cpp`) -/

/-- `QLocalSocket::waitForConnected` timeout used by the liveness probe. -/
def probeTimeoutMs : Nat := 2000

/-- Observable effects of one `newServer` call. -/
structure NewServerResult where
  /-- Byte sequences written to the probe socket. -/
  sentBytes : List (List Byte)
  /-- Whether `server->listen(name)` was invoked. -/
  listening : Bool
  /-- Whether `QLocalServer::removeServer(name)` was invoked. -/
  removedStale : Bool
  deriving Repr, DecidableEq

/-- `newServer(name, parent)`: probe-connect to the endpoint; on success
write `(quint32)0` (4 zero bytes, a body-less frame) and do not listen;
on failure remove any stale endpoint registration and start listening.
`connectOk` abstracts whether `waitForConnected(2000)` succeeded. -/
def newServer (connectOk : Bool) : NewServerResult :=
  if connectOk then
    { sentBytes := [toBE32 0], listening := false, removedStale := false }
  else
    { sentBytes := [], listening := true, removedStale := true }

/-! ## Clipboard history (`src/clipboardmodel.cpp`, `src/clipboardbrowser.cpp`)

`ClipboardItem` lives in `clipboarditem.cpp`, which is not part of the
sources at hand; per the spec an item is its `DataBundle` plus a cached
fingerprint over a fixed formats-to-hash set, so items are embedded as
their bundles and the fingerprint is recomputed by `dataHash`. -/

/-- The in-process history: ordered list of items (index 0 = front) plus
the configured capacity (`m_max` / `m_sharedData->maxItems`). -/
structure ClipboardModel where
  clipboardList : List DataBundle
  maxItems : Nat
  deriving Repr, DecidableEq

/-- Code units of the `text/plain` format identifier. -/
def fmtTextPlain : Codes :=
  "text/plain".toList.map Char.toNat

/-- Modelled from the spec: the fixed "formats to hash" set of a
`ClipboardItem` (`clipboarditem.cpp` is not among the sources); the
default configured format list is the single entry `text/plain`
(`ClipboardBrowserShared::formats`). -/
def hashFormats : List Codes :=
  [fmtTextPlain]

/-- Modelled from the spec: `ClipboardItem::dataHash()`, the cached
`ContentFingerprint` of the item's bundle over `hashFormats`, computed by
the `hash` function of `src/client_server.cpp`. -/
def dataHash (b : DataBundle) : Nat :=
  hashMime b hashFormats

/-- `ClipboardModel::getRowNumber(row, cycle)`: `-1` on an empty list;
rows past the end map to `0` (cycle) or `n-1`, negative rows to `n-1`
(cycle) or `0`; in-range rows are returned unchanged. -/
def getRowNumber (n : Nat) (row : Int) (cycle : Bool) : Int :=
  if n = 0 then -1
  else if row ≥ n then (if cycle then 0 else n - 1)
  else if row < 0 then (if cycle then (n : Int) - 1 else 0)
  else row

/-- `QList::move(from, to)`: take the element at `from` and re-insert it
at position `to` (identity when `from` is out of range). -/
def qlistMove (l : List α) (f t : Nat) : List α :=
  match l[f]? with
  | some x => (l.eraseIdx f).insertIdx t x
  | none => l

/-- `ClipboardModel::move(pos, newpos)`: both positions run through
`getRowNumber` with `cycle = true`; the move is rejected (false, no
change) when the list is empty or when `beginMoveRows` refuses it, which
happens exactly when the two resolved rows coincide; otherwise the item
is relocated and the call returns true. -/
def ClipboardModel.move (st : ClipboardModel) (pos newpos : Int) :
    Bool × ClipboardModel :=
  let f := getRowNumber st.clipboardList.length pos true
  let t := getRowNumber st.clipboardList.length newpos true
  if f = -1 ∨ t = -1 then (false, st)
  else if f = t then (false, st)
  else (true, { st with clipboardList := qlistMove st.clipboardList f.toNat t.toNat })

/-- The spec's `moveToFront(index)` is `ClipboardModel::move(i, 0)`
(`ClipboardBrowser::moveToClipboard(int)`). -/
def ClipboardModel.moveToFront (st : ClipboardModel) (i : Int) :
    Bool × ClipboardModel :=
  st.move i 0

/-- The row a (possibly out-of-range) index resolves to under
`getRowNumber`'s cycling on a non-empty list of length `n`: indices past
the end wrap to 0, negative indices wrap to `n - 1`.  Used to state the
amended behaviour of `moveToFront`. -/
def resolveRow (n : Nat) (i : Int) : Nat :=
  if (n : Int) ≤ i then 0 else if i < 0 then n - 1 else i.toNat

/-- Auxiliary scan for `findItem`, carrying the current row number. -/
def findItemAux (hsh : Nat) : List DataBundle → Nat → Int
  | [], _ => -1
  | b :: t, i => if dataHash b = hsh then i else findItemAux hsh t (i + 1)

/-- `ClipboardModel::findItem(item_hash)`: linear scan over the list,
first row whose item's `dataHash()` equals the argument, `-1` if none. -/
def ClipboardModel.findItem (st : ClipboardModel) (hsh : Nat) : Int :=
  findItemAux hsh st.clipboardList 0

/-- `ClipboardModel::setMaxItems(max)`: clamp the capacity at 0; when
`max` is below the current row count, crop by removing last items until
the count is `max` (modelled for nonnegative `max`). -/
def ClipboardModel.setMaxItems (st : ClipboardModel) (m : Nat) : ClipboardModel :=
  if st.clipboardList.length ≤ m then { st with maxItems := m }
  else { maxItems := m, clipboardList := st.clipboardList.take m }

/-! ### Persistence codec

`operator<<`/`operator>>` of `clipboardmodel.cpp` write the row count and
then each item through `ClipboardItem`'s stream operators.  The item
codec lives in `clipboarditem.cpp` (not among the sources), so the
`QDataStream` is embedded as a typed token stream: one token for the
serialized count, one opaque token per serialized item. -/

/-- One serialized element of the typed `QDataStream`. -/
inductive Tok where
  | num (n : Int)
  | item (b : DataBundle)
  deriving Repr, DecidableEq

/-- `operator<<(QDataStream&, const ClipboardModel&)`: write the row
count, then the items at rows `0 .. N-1` in that (front-to-back) order. -/
def serializeModel (st : ClipboardModel) : List Tok :=
  .num st.clipboardList.length :: st.clipboardList.map .item

/-- Read `k` items off the token stream (`stream >> *item` repeatedly),
failing on a non-item token or an exhausted stream. -/
def readItems (k : Nat) (stream : List Tok) :
    Option (List DataBundle × List Tok) :=
  match k, stream with
  | 0, s => some ([], s)
  | k + 1, .item b :: rest =>
    match readItems k rest with
    | some (bs, s) => some (b :: bs, s)
    | none => none
  | _ + 1, _ => none

/-- `operator>>(QDataStream&, ClipboardModel&)`: read the stored count,
clamp it to `min(stored, maxItems) - rowCount` (a signed quantity; the
read loop runs only for positive values), and append that many items in
stream order via `ClipboardModel::append()`. -/
def deserializeModel (stream : List Tok) (st : ClipboardModel) :
    Option (ClipboardModel × List Tok) :=
  match stream with
  | .num n :: rest =>
    let k : Int := min n (st.maxItems : Int) - st.clipboardList.length
    match readItems k.toNat rest with
    | some (bs, rest2) =>
      some ({ st with clipboardList := st.clipboardList ++ bs }, rest2)
    | none => none
  | _ => none

/-! ### Insertion with dedup and capacity trim (`ClipboardBrowser::add`) -/

/-- `ClipboardBrowser::add(QMimeData *data, bool force, int row)` at
`row = 0` (the spec's `insertAtFront`), with the shared command list
empty — with non-`force` duplicates the command loop is never reached, so
the embedding is exact for the claims at hand.  The dedup comparison
`*m->at(0) == *data` (`ClipboardItem::operator==`, `clipboarditem.cpp`
not among the sources) is modelled from the spec as exact full-content
bundle equality.  After inserting at row 0, one tail row is removed when
the count exceeds `maxItems` (`m_sharedData->maxItems`). -/
def browserAdd (st : ClipboardModel) (x : DataBundle) (force : Bool) :
    Bool × ClipboardModel :=
  if !force && (match st.clipboardList with
                | y :: _ => y == x
                | [] => false) then
    (false, st)
  else
    let l1 := x :: st.clipboardList
    let l2 := if st.maxItems < l1.length then l1.dropLast else l1
    (true, { st with clipboardList := l2 })

/-- Fold a sequence of `(bundle, force)` insertions through `browserAdd`. -/
def runAdds (st : ClipboardModel) (ops : List (DataBundle × Bool)) :
    ClipboardModel :=
  ops.foldl (fun s op => (browserAdd s op.1 op.2).2) st

/-! ### Subset sorting (`ClipboardModel::sortItems`)

`sortItems` relies on Qt 4's `qSort`, whose `qSortHelper`
(median-of-three quicksort, `QtCore/qalgorithms.h`) is transcribed below
verbatim on list ranges; the `goto`-loop is fuel-indexed recursion, with
fuel large enough for the bounded recursion depth, and a fuel-out step
returns the list unchanged. -/

/-- Total indexed read used by the sort (every access is in range at the
call sites). -/
def lGet [Inhabited α] (l : List α) (i : Nat) : α :=
  l.getD i default

/-- Exchange the elements at two positions (identity when either is out
of range). -/
def listSwap (l : List α) (i j : Nat) : List α :=
  match l[i]?, l[j]? with
  | some a, some b => (l.set i b).set j a
  | _, _ => l

/-- The partition loop of `qSortHelper`: advance `low` over elements
below `value`, retreat `high` over elements above it, and exchange the
out-of-place pair, until the cursors meet. -/
def qPartitionLoop [Inhabited α] (lt : α → α → Bool) (value : α) :
    Nat → List α → Nat → Nat → Nat × Nat × List α
  | 0, l, low, high => (low, high, l)
  | fuel + 1, l, low, high =>
    if low < high then
      if lt (lGet l low) value then qPartitionLoop lt value fuel l (low + 1) high
      else if lt value (lGet l high) then qPartitionLoop lt value fuel l low (high - 1)
      else qPartitionLoop lt value fuel (listSwap l low high) (low + 1) (high - 1)
    else (low, high, l)

/-- Qt 4 `qSortHelper(start, end, t, lessThan)` on the index range
`[start, stop)`: spans below 2 are left alone; spans 2 and 3 are handled
by explicit compare-and-swap; larger spans order start/pivot/end, move
the pivot to the back, run the partition loop, restore the pivot, and
recurse on the two sub-ranges. -/
def qSortHelper [Inhabited α] (lt : α → α → Bool) :
    Nat → List α → Nat → Nat → List α
  | 0, l, _, _ => l
  | fuel + 1, l, start, stop =>
    let span := stop - start
    if span < 2 then l
    else
      let last := stop - 1
      let pivot := start + span / 2
      let l1 := if lt (lGet l last) (lGet l start) then listSwap l start last else l
      if span = 2 then l1
      else
        let l2 := if lt (lGet l1 pivot) (lGet l1 start) then listSwap l1 start pivot else l1
        let l3 := if lt (lGet l2 last) (lGet l2 pivot) then listSwap l2 pivot last else l2
        if span = 3 then l3
        else
          let l4 := listSwap l3 pivot last
          let value := lGet l4 last
          let r := qPartitionLoop lt value (stop + 1) l4 start (last - 1)
          let low := if lt (lGet r.2.2 r.1) value then r.1 + 1 else r.1
          let l6 := listSwap r.2.2 last low
          let l7 := qSortHelper lt fuel l6 start low
          qSortHelper lt fuel l7 (low + 1) stop

/-- Qt 4 `qSort(container, lessThan)` over a whole list. -/
def qSortModel [Inhabited α] (lt : α → α → Bool) (l : List α) : List α :=
  qSortHelper lt (l.length + 1) l 0 l.length

/-- `ComparisonItem`: the `(row, item)` pairs handed to the comparator. -/
abbrev ComparisonItem := Nat × DataBundle

/-- The write-back loop of `sortItems`: place the `i`-th
comparator-sorted pair's item at the `i`-th ascending row, skipping
(leaving the slot alone) when the pair already carries that row. -/
def sortWriteLoop : List DataBundle → List ComparisonItem → List Nat → List DataBundle
  | l, (r1, v) :: ps, r2 :: rs =>
    sortWriteLoop (if r1 = r2 then l else l.set r2 v) ps rs
  | l, _, _ => l

/-- `ClipboardModel::sortItems(indexList, compare)`: abort (no mutation)
when any row is past the end; otherwise pair each row with its item,
`qSort` the rows ascending and the pairs by the supplied comparator, and
write each sorted pair back into the matching sorted slot. -/
def ClipboardModel.sortItems (st : ClipboardModel) (poss : List Nat)
    (cmp : ComparisonItem → ComparisonItem → Bool) : ClipboardModel :=
  if poss.any (fun r => st.clipboardList.length ≤ r) then st
  else
    let pairs := poss.map (fun r => (r, st.clipboardList.getD r []))
    let rows := qSortModel (fun a b : Nat => decide (a < b)) poss
    let pairsS := qSortModel cmp pairs
    { st with clipboardList := sortWriteLoop st.clipboardList pairsS rows }

/-! ## Concrete inputs for counterexamples and witnesses -/

/-- A plain-text bundle with payload `A`. -/
def exBundleA : DataBundle := [(fmtTextPlain, [65])]

/-- A plain-text bundle with payload `B`. -/
def exBundleB : DataBundle := [(fmtTextPlain, [66])]

/-- A plain-text bundle with payload `C`. -/
def exBundleC : DataBundle := [(fmtTextPlain, [67])]

/-- A plain-text bundle with payload `D`. -/
def exBundleD : DataBundle := [(fmtTextPlain, [68])]

/-- A one-item history (capacity 100). -/
def exOne : ClipboardModel := { clipboardList := [exBundleA], maxItems := 100 }

/-- A two-item history (capacity 100). -/
def exTwo : ClipboardModel :=
  { clipboardList := [exBundleA, exBundleB], maxItems := 100 }

/-- The empty, capacity-3 history of the spec's scenario. -/
def exScenario0 : ClipboardModel := { clipboardList := [], maxItems := 3 }

/-- The scenario history after inserting A, B, C, D (forced) in order. -/
def exScenarioRun : ClipboardModel :=
  runAdds exScenario0
    [(exBundleA, true), (exBundleB, true), (exBundleC, true), (exBundleD, true)]

/-- A bundle whose single payload starts with byte 50 and continues 1. -/
def exEq1 : DataBundle := [([116], [50, 1])]

/-- A bundle whose single payload starts with byte 50 and continues 2:
`cmpByte`-equal to `exEq1` but a different bundle. -/
def exEq2 : DataBundle := [([116], [50, 2])]

/-- A bundle whose single payload starts with byte 49. -/
def exLow : DataBundle := [([116], [49])]

/-- History used by the sorting counterexample. -/
def exSortState : ClipboardModel :=
  { clipboardList := [exEq1, exEq2, exLow], maxItems := 100 }

/-- A total-order comparator on `(row, item)` pairs looking only at the
first byte of the item's first payload. -/
def cmpByte : ComparisonItem → ComparisonItem → Bool :=
  fun a b =>
    decide ((a.2.getD 0 ([], [])).2.getD 0 0 < (b.2.getD 0 ([], [])).2.getD 0 0)

/-! # Theorems -/

/-- XOR-accumulating fold rewritten as mapped terms folded from the
right. -/
theorem foldl_xor_eq_foldr (f : Codes → Nat) (l : List Codes) (a : Nat) :
    l.foldl (fun h m => h ^^^ f m) a = a ^^^ (l.map f).foldr (fun t h => t ^^^ h) 0 := by
  induction l generalizing a with
  | nil => simp
  | cons x t ih =>
    simp only [List.foldl_cons, List.map_cons, List.foldr_cons, ih (a ^^^ f x)]
    rw [Nat.xor_assoc]

/-- Claim C3: feeding the bytes produced by `writeMessage b` (4-byte
big-endian length prefix, then the payload) into `readMessage` succeeds
and yields exactly `b`, for every payload of length up to 65536, with
nothing left unconsumed. -/
theorem readMessage_writeMessage (b : List Byte) (h : b.length ≤ 65536) :
    readMessage (writeMessage b) = some (b, []) := by
  have hlt : b.length < 2 ^ 32 := by omega
  have hlen : b.length % 2 ^ 32 = b.length := Nat.mod_eq_of_lt hlt
  simp only [writeMessage, toBE32, hlen, readMessage, readBytes, List.cons_append,
    List.nil_append, List.length_cons]
  rw [if_pos (by omega)]
  simp only [List.take_succ_cons, List.take_zero, List.drop_succ_cons, List.drop_zero]
  have hdig : fromBE32 (b.length / 2 ^ 24 % 256) (b.length / 2 ^ 16 % 256)
      (b.length / 2 ^ 8 % 256) (b.length % 256) = b.length := by
    unfold fromBE32; omega
  rw [hdig, if_pos (Nat.le_refl _), List.take_length, List.drop_length]

/-- Witness for C3 at the empty payload: the frame is the bare zero
length field `[0,0,0,0]` and it reads back as the empty message. -/
theorem readMessage_writeMessage_witness :
    ([] : List Byte).length ≤ 65536 ∧ writeMessage [] = [0, 0, 0, 0] ∧
      readMessage (writeMessage []) = some ([], []) :=
  ⟨by decide, by decide, readMessage_writeMessage [] (by decide)⟩

/-- Counterexample to claim C5: on the empty bundle with one requested
format `"x"` the code's `hash` yields `qHash("x") = 120` — the absent
format is hashed with an empty payload, not skipped — while the spec's
skip-absent XOR accumulation yields 0. -/
theorem hash_ne_specFingerprint :
    hashMime [] [[120]] = 120 ∧ specFingerprint [] [[120]] = 0 ∧
      hashMime [] [[120]] ≠ specFingerprint [] [[120]] := by
  decide

/-- Claim C5 as amended: the fingerprint is the XOR accumulation over
ALL requested formats of `(qHash(payload) + qHash(formatName)) mod 2^32`,
where an absent format's payload hashes as the empty byte array (so it
contributes `qHash(formatName)`, as `qHash` of the empty array is 0);
the per-format combination is addition, not XOR, and absent formats are
not skipped. -/
theorem hashMime_eq_amendedFingerprint (data : DataBundle) (formats : List Codes) :
    hashMime data formats = amendedFingerprint data formats := by
  unfold hashMime amendedFingerprint
  rw [foldl_xor_eq_foldr]
  exact Nat.zero_xor _

/-- Claim C8: `newServer` is a two-branch probe-then-bind: a successful
probe connect (2000 ms timeout) sends exactly one zero-length-prefixed
message (the bytes of `writeMessage` on the empty payload: a length
field of 0 and no body) and does not listen nor remove anything; a
failed connect sends nothing, removes any stale endpoint registration
and starts listening. -/
theorem newServer_twoBranch (c : Bool) :
    (c = true →
      newServer c = { sentBytes := [writeMessage []], listening := false,
                      removedStale := false }) ∧
    (c = false →
      newServer c = { sentBytes := [], listening := true, removedStale := true }) ∧
    probeTimeoutMs = 2000 := by
  refine ⟨fun h => ?_, fun h => ?_, rfl⟩ <;> subst h <;> decide

/-- Witness for C8 at both probe outcomes. -/
theorem newServer_twoBranch_witness :
    newServer true = { sentBytes := [writeMessage []], listening := false,
                       removedStale := false } ∧
      newServer false = { sentBytes := [], listening := true, removedStale := true } :=
  ⟨(newServer_twoBranch true).1 rfl, (newServer_twoBranch false).2.1 rfl⟩

/-- `browserAdd` never touches the configured capacity. -/
theorem browserAdd_maxItems (st : ClipboardModel) (x : DataBundle) (f : Bool) :
    ((browserAdd st x f).2).maxItems = st.maxItems := by
  unfold browserAdd
  split
  · rfl
  · rfl

/-- One `browserAdd` keeps the length within capacity. -/
theorem browserAdd_length_le (st : ClipboardModel) (x : DataBundle) (f : Bool)
    (h : st.clipboardList.length ≤ st.maxItems) :
    ((browserAdd st x f).2).clipboardList.length ≤ st.maxItems := by
  unfold browserAdd
  split
  · exact h
  · simp only
    split
    · simp only [List.length_dropLast, List.length_cons]
      omega
    · simp only [List.length_cons] at *
      omega

/-- Any sequence of `browserAdd` calls keeps the length within
capacity. -/
theorem runAdds_length_le (ops : List (DataBundle × Bool)) (st : ClipboardModel)
    (h : st.clipboardList.length ≤ st.maxItems) :
    (runAdds st ops).clipboardList.length ≤ st.maxItems := by
  induction ops generalizing st with
  | nil => exact h
  | cons op ops ih =>
    show (runAdds (browserAdd st op.1 op.2).2 ops).clipboardList.length ≤ st.maxItems
    have hm := browserAdd_maxItems st op.1 op.2
    have := ih (browserAdd st op.1 op.2).2
      (by rw [hm]; exact browserAdd_length_le st op.1 op.2 h)
    rwa [hm] at this

/-- Claim C1: with `x` exactly equal to the front item of a populated
history, `insertAtFront(x, force := false)` returns false and leaves the
history unchanged, while `force := true` returns true and inserts `x` at
the front, the length growing by one unless capacity trimming removes
the tail item. -/
theorem insertAtFront_dedup (st : ClipboardModel) (x : DataBundle)
    (h : st.clipboardList.head? = some x) :
    browserAdd st x false = (false, st) ∧
    (browserAdd st x true).1 = true ∧
    (browserAdd st x true).2.clipboardList =
      (if st.maxItems < st.clipboardList.length + 1
       then (x :: st.clipboardList).dropLast else x :: st.clipboardList) ∧
    (browserAdd st x true).2.clipboardList.length =
      (if st.maxItems < st.clipboardList.length + 1
       then st.clipboardList.length else st.clipboardList.length + 1) := by
  obtain ⟨t, hl⟩ : ∃ t, st.clipboardList = x :: t := by
    cases hc : st.clipboardList with
    | nil => rw [hc] at h; exact absurd h (by simp)
    | cons y ys =>
      rw [hc] at h
      simp only [List.head?_cons, Option.some.injEq] at h
      exact ⟨ys, by rw [h]⟩
  refine ⟨?_, ?_, ?_, ?_⟩
  · unfold browserAdd
    rw [if_pos (by simp [hl])]
  · unfold browserAdd
    rw [if_neg (by simp)]
  · unfold browserAdd
    rw [if_neg (by simp)]
    simp only [List.length_cons]
  · unfold browserAdd
    rw [if_neg (by simp)]
    simp only [List.length_cons]
    split
    · simp only [List.length_dropLast, List.length_cons]
      omega
    · simp only [List.length_cons]

/-- Witness for C1 on a concrete one-item history. -/
theorem insertAtFront_dedup_witness :
    browserAdd exOne exBundleA false = (false, exOne) ∧
    (browserAdd exOne exBundleA true).1 = true ∧
    (browserAdd exOne exBundleA true).2.clipboardList =
      (if exOne.maxItems < exOne.clipboardList.length + 1
       then (exBundleA :: exOne.clipboardList).dropLast
       else exBundleA :: exOne.clipboardList) ∧
    (browserAdd exOne exBundleA true).2.clipboardList.length =
      (if exOne.maxItems < exOne.clipboardList.length + 1
       then exOne.clipboardList.length else exOne.clipboardList.length + 1) :=
  insertAtFront_dedup exOne exBundleA (by decide)

/-- Claim C2: starting within capacity, every sequence of
`insertAtFront` calls stays within capacity (every intermediate state is
the fold of a prefix of the call sequence, so this bounds each state),
and a single call either leaves the history unchanged (when it reports
false) or produces exactly the front-extended list truncated at the
capacity — i.e. any items removed are exactly the trailing,
highest-index ones. -/
theorem insertAtFront_capacity (st : ClipboardModel)
    (h : st.clipboardList.length ≤ st.maxItems) :
    (∀ ops, (runAdds st ops).clipboardList.length ≤ st.maxItems) ∧
    (∀ x f, ((browserAdd st x f).1 = false → (browserAdd st x f).2 = st) ∧
            ((browserAdd st x f).1 = true →
              (browserAdd st x f).2.clipboardList =
                (x :: st.clipboardList).take st.maxItems)) := by
  refine ⟨fun ops => runAdds_length_le ops st h, fun x f => ⟨?_, ?_⟩⟩
  · unfold browserAdd
    split
    · intro; rfl
    · intro hfalse; exact absurd hfalse (by simp)
  · unfold browserAdd
    split
    · intro htrue; exact absurd htrue (by simp)
    · intro
      simp only
      split
      · rename_i hover
        simp only [List.length_cons] at hover
        have hlen : st.clipboardList.length = st.maxItems := by omega
        rw [List.dropLast_eq_take]
        simp only [List.length_cons, Nat.add_sub_cancel]
        rw [hlen]
      · rename_i hunder
        simp only [List.length_cons] at hunder
        rw [List.take_of_length_le (by simp only [List.length_cons]; omega)]

/-- Witness for C2 on a concrete one-item history and a two-call
sequence. -/
theorem insertAtFront_capacity_witness :
    (runAdds exOne [(exBundleB, true), (exBundleA, false)]).clipboardList.length ≤
      exOne.maxItems ∧
    ((browserAdd exOne exBundleB true).1 = true →
      (browserAdd exOne exBundleB true).2.clipboardList =
        (exBundleB :: exOne.clipboardList).take exOne.maxItems) :=
  ⟨(insertAtFront_capacity exOne (by decide)).1 _,
   ((insertAtFront_capacity exOne (by decide)).2 exBundleB true).2⟩

/-- Reading back exactly the items a writer emitted, with arbitrary
trailing stream content. -/
theorem readItems_map (l : List DataBundle) (rest : List Tok) :
    readItems l.length (l.map Tok.item ++ rest) = some (l, rest) := by
  induction l with
  | nil => rfl
  | cons b t ih =>
    show readItems (t.length + 1) (Tok.item b :: (t.map Tok.item ++ rest)) = _
    unfold readItems
    rw [ih]

/-- Reading a prefix of the items a writer emitted. -/
theorem readItems_map_take (t : Nat) (l : List DataBundle) (rest : List Tok)
    (h : t ≤ l.length) :
    readItems t (l.map Tok.item ++ rest) =
      some (l.take t, (l.drop t).map Tok.item ++ rest) := by
  induction t generalizing l with
  | zero => simp [readItems]
  | succ t ih =>
    cases l with
    | nil => simp at h
    | cons b bs =>
      show readItems (t + 1) (Tok.item b :: (bs.map Tok.item ++ rest)) = _
      unfold readItems
      rw [ih bs (by simpa using h)]
      simp

/-- Claim C4: serializing a history of `N ≤ capacity` items and
deserializing into an empty history of the same capacity reproduces the
same ordered item sequence, consuming the whole stream: the writer
emits rows `0..N-1` in order and the reader restores them in that
order. -/
theorem persistence_roundtrip (st e : ClipboardModel)
    (hN : st.clipboardList.length ≤ st.maxItems)
    (hcap : e.maxItems = st.maxItems) (hemp : e.clipboardList = []) :
    deserializeModel (serializeModel st) e =
      some ({ e with clipboardList := st.clipboardList }, []) := by
  unfold serializeModel deserializeModel
  simp only [hemp, List.length_nil, Nat.cast_zero, Int.sub_zero]
  have hmin : min (st.clipboardList.length : Int) (e.maxItems : Int) =
      (st.clipboardList.length : Int) := by
    rw [hcap]
    exact min_eq_left (by exact_mod_cast hN)
  rw [hmin, Int.toNat_natCast]
  rw [show st.clipboardList.map Tok.item = st.clipboardList.map Tok.item ++ [] from
    (List.append_nil _).symm]
  rw [readItems_map]
  simp

/-- Witness for C4 on the concrete scenario history. -/
theorem persistence_roundtrip_witness :
    deserializeModel (serializeModel exTwo) { clipboardList := [], maxItems := 100 } =
      some ({ clipboardList := exTwo.clipboardList, maxItems := 100 }, []) :=
  persistence_roundtrip exTwo { clipboardList := [], maxItems := 100 }
    (by decide) (by decide) (by decide)

/-- Claim C10: deserializing a stream of `N` serialized items into a
history already holding `k` items of capacity `c` appends exactly
`max(0, min(N, c) - k)` items (the Nat subtraction below truncates at
0), taken from the stream in order and placed after the untouched `k`
existing items; the remaining stream tokens are left unread. -/
theorem deserialize_into_populated (src : List DataBundle) (m : ClipboardModel) :
    deserializeModel (Tok.num src.length :: src.map Tok.item) m =
      some ({ m with clipboardList := m.clipboardList ++
                src.take (min src.length m.maxItems - m.clipboardList.length) },
            (src.drop (min src.length m.maxItems - m.clipboardList.length)).map
              Tok.item) ∧
    (src.take (min src.length m.maxItems - m.clipboardList.length)).length =
      min src.length m.maxItems - m.clipboardList.length := by
  have htoNat : (min (src.length : Int) (m.maxItems : Int) -
      (m.clipboardList.length : Int)).toNat =
      min src.length m.maxItems - m.clipboardList.length := by
    rw [← Nat.cast_min]
    omega
  have hle : min src.length m.maxItems - m.clipboardList.length ≤ src.length := by
    omega
  constructor
  · unfold deserializeModel
    simp only [htoNat]
    rw [show src.map Tok.item = src.map Tok.item ++ [] from (List.append_nil _).symm]
    rw [readItems_map_take _ _ _ hle]
    simp
  · rw [List.length_take]
    omega

/-- Moving a row to the front is: that element, then the list with the
row erased. -/
theorem qlistMove_to_front (l : List α) (f : Nat) (h : f < l.length) :
    qlistMove l f 0 = (l.drop f).take 1 ++ l.eraseIdx f := by
  unfold qlistMove
  rw [List.getElem?_eq_getElem h, List.drop_eq_getElem_cons h]
  rfl

/-- Counterexample to claim C6: on the two-item history
`[exBundleA, exBundleB]`, `moveToFront(-1)` — an out-of-range, negative
index — returns true and mutates the history (the negative index cycles
to the last row), instead of returning false with no change. -/
theorem moveToFront_oob_mutates :
    exTwo.clipboardList = [exBundleA, exBundleB] ∧
    (exTwo.moveToFront (-1)).1 = true ∧
    (exTwo.moveToFront (-1)).2.clipboardList = [exBundleB, exBundleA] ∧
    (exTwo.moveToFront (-1)).2 ≠ exTwo := by
  decide

/-- Claim C6 as amended: `moveToFront(index)` resolves the index by
cycling (`index ≥ length` resolves to row 0, `index < 0` to row
`length - 1`, in-range indices to themselves); on an empty history, or
when the resolved row is already 0 (so in particular for
`moveToFront(0)` and for every `index ≥ length`), it returns false with
no state change; otherwise it relocates the resolved row's item to
position 0, preserves the relative order of all other items, and
returns true.  No call ever partially mutates the history. -/
theorem moveToFront_resolves (st : ClipboardModel) (i : Int) :
    st.moveToFront i =
      if st.clipboardList.length = 0 then (false, st)
      else if resolveRow st.clipboardList.length i = 0 then (false, st)
      else (true, { st with clipboardList :=
        (st.clipboardList.drop (resolveRow st.clipboardList.length i)).take 1 ++
          st.clipboardList.eraseIdx (resolveRow st.clipboardList.length i) }) := by
  simp only [ClipboardModel.moveToFront, ClipboardModel.move, getRowNumber, resolveRow]
  by_cases hn : st.clipboardList.length = 0
  · simp [hn]
  · have hpos : 0 < st.clipboardList.length := Nat.pos_of_ne_zero hn
    have h0n : ¬ ((0 : Int) ≥ (st.clipboardList.length : Int)) := by
      simp only [ge_iff_le, not_le]
      exact_mod_cast hpos
    by_cases hge : (st.clipboardList.length : Int) ≤ i
    · simp [hn, hge, h0n, ge_iff_le]
    · by_cases hneg : i < 0
      · by_cases h1 : st.clipboardList.length = 1
        · have hf0 : (st.clipboardList.length : Int) - 1 = 0 := by omega
          simp [hn, hge, hneg, h0n, ge_iff_le, hf0, h1]
        · have hfne1 : ¬ ((st.clipboardList.length : Int) - 1 = -1) := by omega
          have hfne0 : ¬ ((st.clipboardList.length : Int) - 1 = 0) := by omega
          have hfnat0 : ¬ (st.clipboardList.length - 1 = 0) := by omega
          have ht : ((st.clipboardList.length : Int) - 1).toNat =
              st.clipboardList.length - 1 := by omega
          simp only [hn, if_false, hge, hneg, if_true, h0n, ge_iff_le, if_neg hge,
            if_neg h0n, if_neg (by omega : ¬ ((0 : Int) < 0)), if_neg hn,
            if_pos hneg, hfne1, hfne0, hfnat0, or_false, if_false, ht,
            reduceCtorEq, if_neg (by omega : ¬ ((0 : Int) = -1))]
          rw [show Int.toNat 0 = 0 from rfl, qlistMove_to_front _ _ (by omega)]
      · have hint : 0 ≤ i := by omega
        by_cases hz : i = 0
        · simp [hn, hge, hneg, h0n, ge_iff_le, hz]
        · have hine1 : ¬ (i = -1) := by omega
          have htz : ¬ (i.toNat = 0) := by omega
          simp only [hn, if_false, ge_iff_le, if_neg hge, if_neg h0n,
            if_neg (by omega : ¬ ((0 : Int) < 0)), if_neg hn, if_neg hneg,
            hine1, or_false, if_false, reduceCtorEq,
            if_neg (by omega : ¬ ((0 : Int) = -1))]
          rw [if_neg hz, if_neg htz, show Int.toNat 0 = 0 from rfl,
              qlistMove_to_front _ _ (by omega)]

/-- Counterexample to claim C9: after forced inserts of A, B, C, D into
the empty capacity-3 history the order is `[D, C, B]` (A evicted), but
`moveToFront(1)` then yields `[C, D, B]` — index 1 holds C, not B — and
not the claimed `[B, D, C]`. -/
theorem scenario_moveToFront_one :
    exScenarioRun.clipboardList = [exBundleD, exBundleC, exBundleB] ∧
    (exScenarioRun.moveToFront 1).2.clipboardList =
      [exBundleC, exBundleD, exBundleB] ∧
    ([exBundleC, exBundleD, exBundleB] : List DataBundle) ≠
      [exBundleB, exBundleD, exBundleC] := by
  decide

/-- Claim C9 as amended: in the capacity-3 scenario the forced inserts
of A, B, C, D yield `[D, C, B]` with A evicted; `moveToFront(2)` (item
B sits at index 2) succeeds and yields `[B, D, C]`; and the linear
fingerprint scan `findItem(dataHash(D))` then returns index 1. -/
theorem scenario_amended :
    exScenarioRun.clipboardList = [exBundleD, exBundleC, exBundleB] ∧
    (exScenarioRun.moveToFront 2).1 = true ∧
    (exScenarioRun.moveToFront 2).2.clipboardList =
      [exBundleB, exBundleD, exBundleC] ∧
    (exScenarioRun.moveToFront 2).2.findItem (dataHash exBundleD) = 1 := by
  decide

/-- Replacing position `j` by `x` and putting the old element in front
is a permutation of putting `x` in front. -/
theorem get_cons_set_perm (l : List α) (j : Nat) (x : α) (h : j < l.length) :
    (l[j] :: l.set j x).Perm (x :: l) := by
  induction l generalizing j with
  | nil => simp at h
  | cons y ys ih =>
    cases j with
    | zero => exact List.Perm.swap x y ys
    | succ j =>
      have h' : j < ys.length := by simpa using h
      show (ys[j] :: y :: ys.set j x).Perm (x :: y :: ys)
      exact ((List.Perm.swap y (ys[j]) _).trans ((ih j h').cons y)).trans
        (List.Perm.swap x y ys)

/-- A position swap permutes the list. -/
theorem listSwap_perm (l : List α) (i j : Nat) : (listSwap l i j).Perm l := by
  unfold listSwap
  cases hi : l[i]? with
  | none => exact List.Perm.refl l
  | some a =>
    cases hj : l[j]? with
    | none => exact List.Perm.refl l
    | some b =>
      obtain ⟨hilt, hia⟩ := List.getElem?_eq_some.mp hi
      obtain ⟨hjlt, hjb⟩ := List.getElem?_eq_some.mp hj
      show ((l.set i b).set j a).Perm l
      by_cases hij : i = j
      · subst hij
        rw [List.set_set, ← hia]
        exact (get_cons_set_perm l i (l[i]) hilt).cons_inv
      · have hlen : j < (l.set i b).length := by simpa using hjlt
        have hb : (l.set i b)[j] = l[j] :=
          List.getElem_set_ne hij hlen
        have h1 := get_cons_set_perm (l.set i b) j a hlen
        rw [hb, hjb] at h1
        have h2 := get_cons_set_perm l i b hilt
        rw [hia] at h2
        exact (h1.trans h2).cons_inv

/-- A conditional position swap permutes the list. -/
theorem ite_swap_perm (c : Prop) [Decidable c] (l : List α) (i j : Nat) :
    (if c then listSwap l i j else l).Perm l := by
  split
  · exact listSwap_perm l i j
  · exact List.Perm.refl l

/-- The partition loop permutes the list. -/
theorem qPartitionLoop_perm [Inhabited α] (lt : α → α → Bool) (value : α) :
    ∀ (fuel : Nat) (l : List α) (low high : Nat),
      (qPartitionLoop lt value fuel l low high).2.2.Perm l := by
  intro fuel
  induction fuel with
  | zero => intro l low high; exact List.Perm.refl l
  | succ fuel ih =>
    intro l low high
    show (qPartitionLoop lt value (fuel + 1) l low high).2.2.Perm l
    unfold qPartitionLoop
    split
    · split
      · exact ih l (low + 1) high
      · split
        · exact ih l low (high - 1)
        · exact (ih _ (low + 1) (high - 1)).trans (listSwap_perm l low high)
    · exact List.Perm.refl l

/-- The transcribed `qSortHelper` permutes the list. -/
theorem qSortHelper_perm [Inhabited α] (lt : α → α → Bool) :
    ∀ (fuel : Nat) (l : List α) (start stop : Nat),
      (qSortHelper lt fuel l start stop).Perm l := by
  intro fuel
  induction fuel with
  | zero => intro l s e; exact List.Perm.refl l
  | succ fuel ih =>
    intro l s e
    show (qSortHelper lt (fuel + 1) l s e).Perm l
    unfold qSortHelper
    dsimp only
    split
    · exact List.Perm.refl l
    · split
      · exact ite_swap_perm _ _ _ _
      · split
        · exact (ite_swap_perm _ _ _ _).trans
            ((ite_swap_perm _ _ _ _).trans (ite_swap_perm _ _ _ _))
        · exact (ih _ _ _).trans ((ih _ _ _).trans ((listSwap_perm _ _ _).trans
            ((qPartitionLoop_perm lt _ _ _ _ _).trans ((listSwap_perm _ _ _).trans
            ((ite_swap_perm _ _ _ _).trans
              ((ite_swap_perm _ _ _ _).trans (ite_swap_perm _ _ _ _)))))))

/-- `qSort` permutes the container. -/
theorem qSortModel_perm [Inhabited α] (lt : α → α → Bool) (l : List α) :
    (qSortModel lt l).Perm l :=
  qSortHelper_perm lt (l.length + 1) l 0 l.length

/-- The write-back loop does not change the length. -/
theorem sortWriteLoop_length :
    ∀ (ps : List ComparisonItem) (rs : List Nat) (l : List DataBundle),
      (sortWriteLoop l ps rs).length = l.length := by
  intro ps
  induction ps with
  | nil => intro rs l; cases rs <;> rfl
  | cons p ps ih =>
    intro rs l
    cases rs with
    | nil => rfl
    | cons r rs =>
      obtain ⟨r1, v⟩ := p
      show (sortWriteLoop (if r1 = r then l else l.set r v) ps rs).length = l.length
      rw [ih]
      split
      · rfl
      · exact List.length_set l r v

/-- The write-back loop leaves slots outside the row list untouched. -/
theorem sortWriteLoop_getElem_of_notMem :
    ∀ (ps : List ComparisonItem) (rs : List Nat) (l : List DataBundle) (j : Nat),
      j ∉ rs → (sortWriteLoop l ps rs)[j]? = l[j]? := by
  intro ps
  induction ps with
  | nil => intro rs l j _; cases rs <;> rfl
  | cons p ps ih =>
    intro rs l j hj
    cases rs with
    | nil => rfl
    | cons r rs =>
      obtain ⟨r1, v⟩ := p
      have hjr : j ≠ r := fun h => hj (h ▸ List.mem_cons_self r rs)
      have hjrs : j ∉ rs := fun h => hj (List.mem_cons_of_mem r h)
      show (sortWriteLoop (if r1 = r then l else l.set r v) ps rs)[j]? = l[j]?
      rw [ih rs _ j hjrs]
      split
      · rfl
      · exact List.getElem?_set_ne (Ne.symm hjr)

/-- With distinct in-range rows and pairs whose row-matching entries
already sit in place, the write-back loop realises exactly the sorted
pairs at the sorted rows. -/
theorem sortWriteLoop_reads :
    ∀ (ps : List ComparisonItem) (rs : List Nat) (l : List DataBundle),
      rs.Nodup → ps.length = rs.length →
      (∀ q ∈ ps.zip rs, q.1.1 = q.2 → l[q.2]? = some q.1.2) →
      (∀ r ∈ rs, r < l.length) →
      rs.map (fun r => (sortWriteLoop l ps rs)[r]?) =
        ps.map (fun p => some p.2) := by
  intro ps
  induction ps with
  | nil =>
    intro rs l _ hlen _ _
    cases rs with
    | nil => rfl
    | cons r rs => simp at hlen
  | cons p ps ih =>
    intro rs l hnd hlen hzip hrange
    cases rs with
    | nil => simp at hlen
    | cons r rs =>
      obtain ⟨r1, v⟩ := p
      obtain ⟨hr_not, hnd'⟩ := List.nodup_cons.mp hnd
      have hrlt : r < l.length := hrange r (List.mem_cons_self r rs)
      have hhead : (sortWriteLoop (if r1 = r then l else l.set r v) ps rs)[r]? =
          some v := by
        rw [sortWriteLoop_getElem_of_notMem ps rs _ r hr_not]
        split
        · rename_i he
          exact hzip ((r1, v), r) (List.mem_cons_self _ _) he
        · exact List.getElem?_set_self hrlt
      show (r :: rs).map
          (fun x => (sortWriteLoop (if r1 = r then l else l.set r v) ps rs)[x]?) =
        some v :: ps.map (fun p => some p.2)
      simp only [List.map_cons]
      refine congrArg₂ _ hhead ?_
      apply ih rs _ hnd' (by simpa using hlen)
      · intro q hq hq1
        have hmem : q ∈ ((r1, v), r) :: ps.zip rs := List.mem_cons_of_mem _ hq
        have horig : l[q.2]? = some q.1.2 := hzip q hmem hq1
        have hq2rs : q.2 ∈ rs := (List.of_mem_zip hq).2
        have hrq2 : r ≠ q.2 := fun h => hr_not (h ▸ hq2rs)
        split
        · exact horig
        · rw [List.getElem?_set_ne hrq2]
          exact horig
      · intro r' hr'
        have : r' < l.length := hrange r' (List.mem_cons_of_mem r hr')
        split
        · exact this
        · simpa using this

/-- Counterexample to claim C7's stability: the bundles `exEq1` and
`exEq2` compare equal under `cmpByte` (neither is less than the other)
and start in the order `exEq1, exEq2`, yet sorting all three positions
leaves them in the order `exEq2, exEq1` — Qt's `qSort` is not stable. -/
theorem sortItems_unstable :
    cmpByte (0, exEq1) (1, exEq2) = false ∧
    cmpByte (1, exEq2) (0, exEq1) = false ∧
    exSortState.clipboardList = [exEq1, exEq2, exLow] ∧
    (exSortState.sortItems [0, 1, 2] cmpByte).clipboardList =
      [exLow, exEq2, exEq1] ∧
    exEq1 ≠ exEq2 := by
  decide

/-- Claim C7 as amended: for distinct in-range positions and any
comparator, `sortItems` reorders only the items at the given positions
relative to each other — the length is unchanged, every item not at a
listed position keeps its slot, and the listed slots hold a permutation
of the items originally at those positions — but items comparing equal
under the comparator need not keep their original relative order
(`qSort` is unstable). -/
theorem sortItems_subset_perm (st : ClipboardModel) (poss : List Nat)
    (cmp : ComparisonItem → ComparisonItem → Bool)
    (hnd : poss.Nodup) (hin : ∀ r ∈ poss, r < st.clipboardList.length) :
    (st.sortItems poss cmp).clipboardList.length = st.clipboardList.length ∧
    (∀ j, j ∉ poss →
      (st.sortItems poss cmp).clipboardList[j]? = st.clipboardList[j]?) ∧
    (poss.map (fun r => (st.sortItems poss cmp).clipboardList[r]?)).Perm
      (poss.map (fun r => st.clipboardList[r]?)) := by
  have hany : (poss.any fun r => st.clipboardList.length ≤ r) = false := by
    simp only [List.any_eq_false, decide_eq_true_eq]
    intro r hr
    exact Nat.not_le.mpr (hin r hr)
  unfold ClipboardModel.sortItems
  rw [hany]
  simp only [Bool.false_eq_true, if_false]
  set pairs := poss.map (fun r => (r, st.clipboardList.getD r [])) with hpairs
  set rows := qSortModel (fun a b : Nat => decide (a < b)) poss with hrows
  set pairsS := qSortModel cmp pairs with hpairsS
  have hrowsperm : rows.Perm poss := qSortModel_perm _ _
  have hpairsperm : pairsS.Perm pairs := qSortModel_perm _ _
  have hrows_nd : rows.Nodup := hrowsperm.nodup_iff.mpr hnd
  have hrows_range : ∀ r ∈ rows, r < st.clipboardList.length :=
    fun r hr => hin r (hrowsperm.mem_iff.mp hr)
  have hlenpairs : pairsS.length = rows.length := by
    rw [hpairsperm.length_eq, hrowsperm.length_eq, hpairs, List.length_map]
  have hsnd : ∀ q ∈ pairsS, q.2 = st.clipboardList.getD q.1 [] ∧ q.1 ∈ poss := by
    intro q hq
    have hq' : q ∈ pairs := hpairsperm.mem_iff.mp hq
    rw [hpairs] at hq'
    obtain ⟨r, hr, heq⟩ := List.mem_map.mp hq'
    subst heq
    exact ⟨rfl, hr⟩
  have hzip : ∀ q ∈ pairsS.zip rows, q.1.1 = q.2 →
      st.clipboardList[q.2]? = some q.1.2 := by
    intro q hq hqe
    obtain ⟨hq2, hq1mem⟩ := hsnd q.1 (List.of_mem_zip hq).1
    have hlt : q.1.1 < st.clipboardList.length := hin _ hq1mem
    rw [← hqe, List.getElem?_eq_getElem hlt, hq2,
      List.getD_eq_getElem?_getD, List.getElem?_eq_getElem hlt]
    rfl
  have hmain := sortWriteLoop_reads pairsS rows st.clipboardList hrows_nd
    hlenpairs hzip hrows_range
  refine ⟨sortWriteLoop_length _ _ _, fun j hj => ?_, ?_⟩
  · exact sortWriteLoop_getElem_of_notMem pairsS rows st.clipboardList j
      (fun hmem => hj (hrowsperm.mem_iff.mp hmem))
  · have c1 : (poss.map
        (fun r => (sortWriteLoop st.clipboardList pairsS rows)[r]?)).Perm
        (rows.map (fun r => (sortWriteLoop st.clipboardList pairsS rows)[r]?)) :=
      (hrowsperm.map _).symm
    rw [hmain] at c1
    have c2 : (pairsS.map (fun p => some p.2)).Perm
        (pairs.map (fun p => some p.2)) := hpairsperm.map _
    have c3 : pairs.map (fun p => some p.2) =
        poss.map (fun r => st.clipboardList[r]?) := by
      rw [hpairs, List.map_map]
      apply List.map_congr_left
      intro r hr
      simp only [Function.comp_apply]
      rw [List.getD_eq_getElem?_getD, List.getElem?_eq_getElem (hin r hr)]
      rfl
    rw [c3] at c2
    exact c1.trans c2

/-- Witness for the amended C7 on the concrete sorting scenario: the
length is preserved and an unlisted slot keeps its item. -/
theorem sortItems_subset_perm_witness :
    (exSortState.sortItems [0, 2] cmpByte).clipboardList.length =
      exSortState.clipboardList.length ∧
    (exSortState.sortItems [0, 2] cmpByte).clipboardList[1]? =
      exSortState.clipboardList[1]? :=
  ⟨(sortItems_subset_perm exSortState [0, 2] cmpByte (by decide)
      (by decide)).1,
   (sortItems_subset_perm exSortState [0, 2] cmpByte (by decide)
      (by decide)).2.1 1 (by decide)⟩

end CopyQ
